import Mathlib

/-!
Formal model of the SRKW sighting analysis program (orcaMain.py).

The program's four estimators are embedded shallowly over ℚ (idealising
Python floats) with the file I/O replaced by in-memory lists of rows, as
the specification's Event Store Adapter prescribes.  Python-specific
semantics that the program relies on are modelled explicitly:

* Python `round` is round-half-to-even (`pyRound`);
* Python list indexing accepts negative indices down to `-len`
  (silently aliasing from the end) and raises `IndexError` otherwise
  (`pyIndex`, with `none` standing for the raised exception);
* Python `int(s)` on a single character succeeds exactly on a digit
  (`digitVal`, with `none` standing for the raised `ValueError`);
* Python `c in s` on a one-character needle is character membership
  (`strHasChar`);
* `np.mean` of an empty array is NaN, modelled as `none`.
-/

namespace Orca

/-- Python `round`: round half to even (banker's rounding). -/
def pyRound (q : ℚ) : ℤ :=
  if q - ⌊q⌋ < 1/2 then ⌊q⌋
  else if 1/2 < q - ⌊q⌋ then ⌊q⌋ + 1
  else if ⌊q⌋ % 2 = 0 then ⌊q⌋ else ⌊q⌋ + 1

/-- Size of each dimension of the grid allocated by `best_location`:
`grid = [[0 for _ in range(20000)] for _ in range(20000)]`. -/
def gridSize : ℕ := 20000

/-- Python list indexing semantics for a list of length `gridSize`:
a non-negative index must be `< len`, a negative index `i` aliases
`len + i` when `-len ≤ i`, anything else raises `IndexError` (`none`). -/
def pyIndex (i : ℤ) : Option ℕ :=
  if 0 ≤ i ∧ i < (gridSize : ℤ) then some i.toNat
  else if -(gridSize : ℤ) ≤ i ∧ i < 0 then some (i + gridSize).toNat
  else none

/-- Python `c in s` for a single-character needle: character membership. -/
def strHasChar (s : String) (c : Char) : Bool :=
  s.data.contains c

/-- Python `int(c)` for a single character: its digit value when `c` is one
of the characters 0-9, and `ValueError` (`none`) otherwise. -/
def digitVal (c : Char) : Option ℤ :=
  if c.isDigit then some ((c.toNat : ℤ) - 48) else none

/-- The program's month extraction, `int(sighting_date[0])`: the result of
`sighting_date.split('/')` is discarded, so only the FIRST character of the
date string is converted.  `none` models the raised exception (empty string
or non-digit first character). -/
def monthOf (date : String) : Option ℤ :=
  match date.data with
  | [] => none
  | c :: _ => digitVal c

/-- One row of the cleaned CSV: date string, pod label, latitude, longitude
(fields `row[0], row[1], row[2], row[3]`). -/
structure Row where
  date : String
  pod : String
  lat : ℚ
  long : ℚ

/-- The month test `month == int(sighting_date[0])` shared verbatim by
`find_location` and `most_likely_pod`; `none` models the crash on a
malformed date. -/
def monthMatches (month : ℤ) (r : Row) : Option Bool :=
  (monthOf r.date).map (fun k => month == k)

/-- The sightings list built by `find_location`: rows passing the month
test contribute `(float(row[2]), float(row[3]))`, in file order.  `none`
models the crash on a malformed date. -/
def sightingsForMonth (month : ℤ) : List Row → Option (List (ℚ × ℚ))
  | [] => some []
  | r :: rs =>
    match monthMatches month r with
    | none => none
    | some b =>
      match sightingsForMonth month rs with
      | none => none
      | some ss => some (if b then (r.lat, r.long) :: ss else ss)

/-! Density grid estimator (`best_location`). -/

/-- The grid cell written by `best_location` for a sighting `s`:
`y = round(s[0] * 100); x = round(s[1] * -100); grid[x][y] += 1`,
returned as the index pair `(x, y)`. -/
def cellOf (s : ℚ × ℚ) : ℤ × ℤ :=
  (pyRound (s.2 * (-100)), pyRound (s.1 * 100))

/-- The concrete pair of list positions touched by `grid[x][y] += 1`, after
Python negative-index aliasing; `none` models the raised `IndexError`. -/
def cellIdx (s : ℚ × ℚ) : Option (ℕ × ℕ) :=
  match pyIndex (cellOf s).1, pyIndex (cellOf s).2 with
  | some x, some y => some (x, y)
  | _, _ => none

/-- The grid-filling loop of `best_location`, recording which cell each
sighting increments; `none` models the `IndexError` raised on a sighting
whose indices are out of range. -/
def fillCells : List (ℚ × ℚ) → Option (List (ℕ × ℕ))
  | [] => some []
  | s :: rest =>
    match cellIdx s, fillCells rest with
    | some c, some cs => some (c :: cs)
    | _, _ => none

/-- Lexicographic order on index pairs: the order in which the double scan
`for row in range(20000): for col in range(20000)` visits the grid. -/
def scanLe (a b : ℕ × ℕ) : Prop :=
  a.1 < b.1 ∨ (a.1 = b.1 ∧ a.2 ≤ b.2)

instance : DecidableRel scanLe := fun a b => by
  unfold scanLe
  infer_instance

instance : IsTrans (ℕ × ℕ) scanLe :=
  ⟨by intro a b c hab hbc; unfold scanLe at *; omega⟩

instance : IsTotal (ℕ × ℕ) scanLe :=
  ⟨by intro a b; unfold scanLe; omega⟩

/-- One step of the scan, `if grid[row][col] > prob: prob = ...; best = ...`,
on the state `acc = (best_cell, prob)`. -/
def scanStep (cnt : ℕ × ℕ → ℕ) (acc : (ℕ × ℕ) × ℕ) (c : ℕ × ℕ) : (ℕ × ℕ) × ℕ :=
  if cnt c > acc.2 then (c, cnt c) else acc

/-- The scan of `best_location`.  The dense double loop over all
`20000 * 20000` cells starts from `best = (0, 0), prob = 0` and updates the
state only at cells holding a strictly larger count than the running `prob`;
since unoccupied cells hold count 0 they never update, so the loop is the
fold of `scanStep` over exactly the occupied cells, visited in lexicographic
index order. -/
def bestScan (cells : List (ℕ × ℕ)) : (ℕ × ℕ) × ℕ :=
  (List.insertionSort scanLe cells.dedup).foldl
    (scanStep (fun c => cells.count c)) ((0, 0), 0)

/-- `best_location`: bins the sightings, scans for the best cell `(row, col)`,
and returns `best = (col / 100, -row / 100)` together with the winning count
`prob` that the source prints; `none` models an uncaught `IndexError`. -/
def best_location (sightings : List (ℚ × ℚ)) : Option ((ℚ × ℚ) × ℕ) :=
  match fillCells sightings with
  | none => none
  | some cells =>
    some (((((bestScan cells).1.2 : ℚ)) / 100, -(((bestScan cells).1.1 : ℚ)) / 100),
      (bestScan cells).2)

/-- A proper (non-aliased, in-range) grid access for sighting `s`. -/
def properAccess (s : ℚ × ℚ) : Prop :=
  0 ≤ (cellOf s).1 ∧ (cellOf s).1 < (gridSize : ℤ) ∧
    0 ≤ (cellOf s).2 ∧ (cellOf s).2 < (gridSize : ℤ)

/-! `find_location`. -/

/-- Result of `find_location`: `crash` models an uncaught exception, `err`
the `['error', -1]` sentinel returned (after the "No data" message) when no
sighting matches the month, and `ok` the `[best, sightings]` list returned
otherwise. -/
inductive FindLocResult
  | crash
  | err
  | ok (best : (ℚ × ℚ) × ℕ) (sightings : List (ℚ × ℚ))

/-- `find_location(month)` over an in-memory copy of the CSV rows. -/
def find_location (month : ℤ) (rows : List Row) : FindLocResult :=
  match sightingsForMonth month rows with
  | none => .crash
  | some sightings =>
    if sightings = [] then .err
    else
      match best_location sightings with
      | none => .crash
      | some best => .ok best sightings

/-! Categorical pod classifier (`most_likely_pod`). -/

/-- The `pod_sightings` list of `most_likely_pod`: labels `row[1]` of the
rows passing the month test and lying strictly inside the bounding box of
half-width 1 around `loc`, in file order; `none` models the crash on a
malformed date. -/
def podSightingsFor (month : ℤ) (loc : ℚ × ℚ) : List Row → Option (List String)
  | [] => some []
  | r :: rs =>
    match monthMatches month r with
    | none => none
    | some b =>
      match podSightingsFor month loc rs with
      | none => none
      | some ss =>
        some (if b = true ∧ loc.1 - 1 < r.lat ∧ r.lat < loc.1 + 1 ∧
            loc.2 - 1 < r.long ∧ r.long < loc.2 + 1 then r.pod :: ss else ss)

/-- A pod's count in `most_likely_pod`: it starts at 1 (Laplace smoothing)
and is incremented once for every sighting whose label contains the pod
letter, so a compound label increments several counts. -/
def podCount (c : Char) (ss : List String) : ℕ :=
  1 + ss.countP (fun s => strHasChar s c)

/-- The grand total of `most_likely_pod`: it starts at 3 and grows once per
sighting (`total += len(pod_sightings)`), regardless of how many pod
letters the sighting's label contains. -/
def podTotal (ss : List String) : ℕ := 3 + ss.length

/-- The full-precision probability distribution `pod_counts[key] / total`
over J, K, L computed by `most_likely_pod` (the source additionally rounds
each entry to 3 decimals for display). -/
def podDist (ss : List String) : ℚ × ℚ × ℚ :=
  ((podCount 'J' ss : ℚ) / (podTotal ss : ℚ),
   (podCount 'K' ss : ℚ) / (podTotal ss : ℚ),
   (podCount 'L' ss : ℚ) / (podTotal ss : ℚ))

/-- `most_likely_pod(month, loc)` over an in-memory copy of the CSV rows,
returning the category distribution. -/
def most_likely_pod (month : ℤ) (loc : ℚ × ℚ) (rows : List Row) :
    Option (ℚ × ℚ × ℚ) :=
  (podSightingsFor month loc rows).map podDist

/-! Area-bootstrap probability estimator (`find_prob` / `bootstrap`). -/

/-- A bounds rectangle `[lat_max, lat_min, long_max, long_min]` as the
source stores it (list indices 0, 1, 2, 3). -/
structure Bounds where
  latMax : ℚ
  latMin : ℚ
  longMax : ℚ
  longMin : ℚ

/-- `(b[0] - b[1]) * (b[2] - b[3])`: the area formula used both for the
sample space and for each inflated sighting area. -/
def boundsArea (b : Bounds) : ℚ :=
  (b.latMax - b.latMin) * (b.longMax - b.longMin)

/-- The random numbers available to one Monte-Carlo iteration:
`chance = random.random()` and the coordinates `random.uniform(...)` that
the success branch would draw. -/
structure Draw where
  chance : ℚ
  dlat : ℚ
  dlong : ℚ

/-- The source's `large_number` of Monte-Carlo iterations. -/
def large_number : ℕ := 100000

/-- The test deciding `orcas_in_sight += 1` in one iteration: the Bernoulli
draw succeeds (`chance <= p`) and the uniform point lands strictly inside
the sight bounds. -/
def hitTest (p : ℚ) (sb : Bounds) (d : Draw) : Bool :=
  decide (d.chance ≤ p) && decide (sb.latMin < d.dlat) &&
    decide (d.dlat < sb.latMax) && decide (sb.longMin < d.dlong) &&
    decide (d.dlong < sb.longMax)

/-- `bootstrap`: the analytic weight `p = event_space / sample_space`
followed by the Laplace-smoothed Monte-Carlo estimate
`(orcas_in_sight + 1) / (large_number + 1)` over the given outcome of the
random draws; `none` models the `ZeroDivisionError` raised when the sample
space is empty. -/
def bootstrap (whale_bounds sight_bounds : Bounds) (nearby_areas : List Bounds)
    (draws : List Draw) : Option ℚ :=
  let sample_space := boundsArea whale_bounds
  let event_space := (nearby_areas.map boundsArea).sum
  if sample_space = 0 then none
  else
    some (((draws.countP (hitTest (event_space / sample_space) sight_bounds) : ℚ) + 1) /
      ((large_number : ℚ) + 1))

/-- `find_prob`: the whale bounds, a square of half-width 1 around `loc`. -/
def whaleBoundsOf (loc : ℚ × ℚ) : Bounds :=
  ⟨loc.1 + 1, loc.1 - 1, loc.2 + 1, loc.2 - 1⟩

/-- `find_prob`: the sight bounds, a square of half-width 0.01 around `loc`. -/
def sightBoundsOf (loc : ℚ × ℚ) : Bounds :=
  ⟨loc.1 + 1/100, loc.1 - 1/100, loc.2 + 1/100, loc.2 - 1/100⟩

/-- `find_prob`: the sightings strictly inside the whale bounds. -/
def nearbyPoints (loc : ℚ × ℚ) (sightings : List (ℚ × ℚ)) : List (ℚ × ℚ) :=
  sightings.filter (fun s =>
    decide (loc.1 - 1 < s.1) && decide (s.1 < loc.1 + 1) &&
      decide (loc.2 - 1 < s.2) && decide (s.2 < loc.2 + 1))

/-- `find_prob`: each nearby point inflated to a square of half-width 0.01. -/
def nearbyAreas (points : List (ℚ × ℚ)) : List Bounds :=
  points.map (fun p => ⟨p.1 + 1/100, p.1 - 1/100, p.2 + 1/100, p.2 - 1/100⟩)

/-- `find_prob(loc, sightings)` with the Monte-Carlo outcome made explicit. -/
def find_prob (loc : ℚ × ℚ) (sightings : List (ℚ × ℚ)) (draws : List Draw) :
    Option ℚ :=
  bootstrap (whaleBoundsOf loc) (sightBoundsOf loc)
    (nearbyAreas (nearbyPoints loc sightings)) draws

/-- The analytic mixture weight `p` as `bootstrap` computes it when called
from `find_prob`. -/
def pOf (loc : ℚ × ℚ) (sightings : List (ℚ × ℚ)) : ℚ :=
  ((nearbyAreas (nearbyPoints loc sightings)).map boundsArea).sum /
    boundsArea (whaleBoundsOf loc)

/-- The Monte-Carlo hit count `orcas_in_sight` of `find_prob`. -/
def hitsOf (loc : ℚ × ℚ) (sightings : List (ℚ × ℚ)) (draws : List Draw) : ℕ :=
  draws.countP (hitTest (pOf loc sightings) (sightBoundsOf loc))

/-! Inter-arrival time model (`time_until_next`). -/

/-- The timestamp list built by `time_until_next`: timestamps (in hours)
are appended in file order, skipping any value already present
(`if timestamp not in timestamps`), i.e. first-occurrence deduplication
WITHOUT sorting. -/
def dedupTimestamps (ts : List ℚ) : List ℚ :=
  ts.foldl (fun acc t => if t ∈ acc then acc else acc ++ [t]) []

/-- `np.diff`: consecutive differences of a list. -/
def time_diffs (l : List ℚ) : List ℚ :=
  List.zipWith (fun a b => b - a) l l.tail

/-- The expectation computed by `time_until_next`:
`np.mean(np.diff(timestamps))`.  `np.mean` of an empty array is NaN (with
only a `RuntimeWarning`), modelled as `none`. -/
def avg_time_diff (ts : List ℚ) : Option ℚ :=
  if (time_diffs (dedupTimestamps ts)).length = 0 then none
  else some ((time_diffs (dedupTimestamps ts)).sum /
    ((time_diffs (dedupTimestamps ts)).length : ℚ))

/-- Modelled from the spec (for comparison with `avg_time_diff`): the
arithmetic mean of the consecutive differences of the deduplicated
timestamps SORTED in ascending order, as section 4.4 of the specification
words it. -/
def specSortedMean (ts : List ℚ) : Option ℚ :=
  if (time_diffs (List.insertionSort (· ≤ ·) (dedupTimestamps ts))).length = 0 then none
  else some ((time_diffs (List.insertionSort (· ≤ ·) (dedupTimestamps ts))).sum /
    ((time_diffs (List.insertionSort (· ≤ ·) (dedupTimestamps ts))).length : ℚ))

theorem digit_toNat_bounds (c : Char) (hd : c.isDigit = true) :
    48 ≤ c.toNat ∧ c.toNat ≤ 57 := by
  have hb : (48 : UInt32) ≤ c.val ∧ c.val ≤ 57 := by
    simpa [Char.isDigit, Bool.and_eq_true, ge_iff_le] using hd
  constructor
  · exact_mod_cast hb.1
  · exact_mod_cast hb.2

theorem digitVal_range (c : Char) (k : ℤ) (h : digitVal c = some k) :
    0 ≤ k ∧ k ≤ 9 := by
  unfold digitVal at h
  split_ifs at h with hd
  obtain ⟨h48, h57⟩ := digit_toNat_bounds c hd
  cases h
  omega

theorem monthOf_range (date : String) (k : ℤ) (h : monthOf date = some k) :
    0 ≤ k ∧ k ≤ 9 := by
  unfold monthOf at h
  rcases hd : date.data with _ | ⟨c, cs⟩ <;> rw [hd] at h
  · exact absurd h (by simp)
  · exact digitVal_range c k h

/-- Claim C9: the month filter used by both `find_location` and
`most_likely_pod` admits a row exactly when the integer value of the first
character of its date string equals the queried month; any date string
beginning with the character 1 (in particular one recording month 10, 11
or 12) is treated as month 1; and no query for month 10, 11 or 12 can ever
match a row. -/
theorem month_filter_first_char_only (m : ℤ) (r : Row) (cs : List Char) :
    (monthMatches m r = some true ↔ monthOf r.date = some m) ∧
    (sightingsForMonth m [r] = some [(r.lat, r.long)] ↔ monthOf r.date = some m) ∧
    monthOf (String.mk ('1' :: cs)) = some 1 ∧
    monthOf r.date ≠ some 10 ∧ monthOf r.date ≠ some 11 ∧ monthOf r.date ≠ some 12 := by
  have hmm : monthMatches m r = some true ↔ monthOf r.date = some m := by
    unfold monthMatches
    rcases hm : monthOf r.date with _ | k
    · simp
    · simp only [Option.map_some', Option.some_inj, beq_iff_eq]
      exact eq_comm
  have hs : ∀ b, monthMatches m r = some b →
      sightingsForMonth m [r] = some (if b then [(r.lat, r.long)] else []) := by
    intro b hb
    simp [sightingsForMonth, hb]
  refine ⟨hmm, ?_, ?_, ?_, ?_, ?_⟩
  · rcases hm : monthMatches m r with _ | b
    · constructor
      · intro h
        rw [show sightingsForMonth m [r] = none from by simp [sightingsForMonth, hm]] at h
        exact absurd h (by simp)
      · intro h
        rw [hmm.mpr h] at hm
        exact absurd hm (by simp)
    · rw [hs b hm, ← hmm, hm]
      rcases b with _ | _ <;> simp
  · rfl
  · intro h
    have := monthOf_range r.date 10 h
    omega
  · intro h
    have := monthOf_range r.date 11 h
    omega
  · intro h
    have := monthOf_range r.date 12 h
    omega

/-- Claim C8: on rows that all parse but none of which matches the queried
month (an empty sightings list), `find_location` returns its error sentinel
(the `['error', -1]` value, the code's realisation of `EmptyInputError`),
distinct by construction from every ordinary location result, so the caller
must branch on it rather than receive a location. -/
theorem find_location_empty_is_error (month : ℤ) (rows : List Row)
    (h : sightingsForMonth month rows = some []) :
    find_location month rows = FindLocResult.err := by
  unfold find_location
  rw [h]
  simp

theorem find_location_empty_is_error_witness :
    sightingsForMonth 1 [] = some [] ∧ find_location 1 [] = FindLocResult.err :=
  ⟨rfl, find_location_empty_is_error 1 [] rfl⟩

theorem time_diffs_length (l : List ℚ) :
    (time_diffs l).length = l.length - 1 := by
  unfold time_diffs
  rw [List.length_zipWith, List.length_tail]
  omega

/-- Claim C7: with fewer than two distinct timestamps, `time_until_next`
does NOT raise any error: `np.diff` is empty and `np.mean` of it is NaN
(modelled `none`), which the source then prints as the expected wait and
feeds to `stats.expon` as scale. -/
theorem nan_mean_when_fewer_than_two_timestamps (ts : List ℚ)
    (h : (dedupTimestamps ts).length < 2) :
    avg_time_diff ts = none := by
  unfold avg_time_diff
  rw [if_pos]
  rw [time_diffs_length]
  omega

theorem nan_mean_witness :
    (dedupTimestamps [(5 : ℚ)]).length < 2 ∧ avg_time_diff [(5 : ℚ)] = none :=
  ⟨by simp [dedupTimestamps],
    nan_mean_when_fewer_than_two_timestamps _ (by simp [dedupTimestamps])⟩

theorem time_diffs_sum (l : List ℚ) :
    (time_diffs l).sum = l.getLastD 0 - l.headD 0 := by
  induction l with
  | nil => simp [time_diffs]
  | cons a t ih =>
    rcases t with _ | ⟨b, t2⟩
    · simp [time_diffs]
    · have h1 : time_diffs (a :: b :: t2) = (b - a) :: time_diffs (b :: t2) := by
        simp [time_diffs]
      rw [h1, List.sum_cons, ih]
      simp only [List.getLastD_cons, List.headD_cons]
      ring

/-- Counterexample to claim C6: the source never sorts the deduplicated
timestamps, so on the file-order timestamps 10, 0, 20 (hours) it averages
the consecutive differences of that order, giving 5, while the mean over
the ascending order prescribed by the claim is 10. -/
theorem unsorted_timestamps_cex :
    avg_time_diff [10, 0, 20] = some 5 ∧
    specSortedMean [10, 0, 20] = some 10 ∧ (5 : ℚ) ≠ 10 := by
  refine ⟨?_, ?_, by norm_num⟩
  · norm_num [avg_time_diff, dedupTimestamps, time_diffs]
  · norm_num [specSortedMean, dedupTimestamps, time_diffs,
      List.insertionSort, List.orderedInsert]

/-- Claim C6 as amended: the fitted mean is the arithmetic mean of the
consecutive differences of the deduplicated timestamps in their ORIGINAL
first-occurrence order, not sorted order; by telescoping it equals
(last distinct timestamp - first distinct timestamp) / (number of distinct
timestamps - 1). -/
theorem mean_is_over_first_occurrence_order (ts : List ℚ)
    (h : 2 ≤ (dedupTimestamps ts).length) :
    avg_time_diff ts =
      some (((dedupTimestamps ts).getLastD 0 - (dedupTimestamps ts).headD 0) /
        (((dedupTimestamps ts).length - 1 : ℕ) : ℚ)) := by
  unfold avg_time_diff
  rw [if_neg (by rw [time_diffs_length]; omega)]
  rw [time_diffs_sum, time_diffs_length]

theorem mean_is_over_first_occurrence_order_witness :
    2 ≤ (dedupTimestamps [0, 10, 20, 40]).length ∧
    avg_time_diff [0, 10, 20, 40] =
      some (((dedupTimestamps [0, 10, 20, 40]).getLastD 0 -
          (dedupTimestamps [0, 10, 20, 40]).headD 0) /
        (((dedupTimestamps [0, 10, 20, 40]).length - 1 : ℕ) : ℚ)) :=
  ⟨by norm_num [dedupTimestamps],
    mean_is_over_first_occurrence_order _ (by norm_num [dedupTimestamps])⟩

theorem strHasChar_JK_J : strHasChar "JK" 'J' = true := by decide

theorem strHasChar_JK_K : strHasChar "JK" 'K' = true := by decide

theorem strHasChar_JK_L : strHasChar "JK" 'L' = false := by decide

theorem monthOf_cex_date : monthOf "1/01/01" = some 1 := by decide

/-- Counterexample to claim C1: a single matching sighting whose compound
label "JK" contains both J and K increments both counts but the grand total
only once, so the returned distribution is (1/2, 1/2, 1/4), whose sum 5/4
is not 1 (far outside any floating tolerance). -/
theorem classify_sum_not_one_cex :
    most_likely_pod 1 (0, 0) [Row.mk "1/01/01" "JK" 0 0] =
      some (1/2, 1/2, 1/4) ∧
    (1/2 + 1/2 + 1/4 : ℚ) ≠ 1 := by
  constructor
  · norm_num [most_likely_pod, podSightingsFor, monthMatches, monthOf_cex_date,
      podDist, podCount, podTotal, List.countP_cons, strHasChar_JK_J,
      strHasChar_JK_K, strHasChar_JK_L]
  · norm_num

/-- Claim C1 as amended: every known category's probability is strictly
positive (Laplace smoothing), and the probabilities sum to
(3 + total number of label matches) / (3 + number of matching events);
this equals 1 exactly when every matching event's label matches exactly one
category — in particular when zero matching events exist — but not in
general, since a compound label increments several counts while the grand
total increments once per event. -/
theorem classify_positive_and_sum (month : ℤ) (loc : ℚ × ℚ) (rows : List Row)
    (ss : List String) (h : podSightingsFor month loc rows = some ss) :
    most_likely_pod month loc rows = some (podDist ss) ∧
    0 < (podDist ss).1 ∧ 0 < (podDist ss).2.1 ∧ 0 < (podDist ss).2.2 ∧
    (podDist ss).1 + (podDist ss).2.1 + (podDist ss).2.2 =
      ((podCount 'J' ss + podCount 'K' ss + podCount 'L' ss : ℕ) : ℚ) /
        ((podTotal ss : ℕ) : ℚ) := by
  have hcnt : ∀ c : Char, 0 < ((podCount c ss : ℕ) : ℚ) := by
    intro c
    have : 0 < podCount c ss := by unfold podCount; omega
    exact_mod_cast this
  have htot : 0 < ((podTotal ss : ℕ) : ℚ) := by
    have : 0 < podTotal ss := by unfold podTotal; omega
    exact_mod_cast this
  refine ⟨?_, ?_, ?_, ?_, ?_⟩
  · unfold most_likely_pod
    rw [h, Option.map_some']
  · exact div_pos (hcnt 'J') htot
  · exact div_pos (hcnt 'K') htot
  · exact div_pos (hcnt 'L') htot
  · unfold podDist
    rw [div_add_div_same, div_add_div_same]
    push_cast
    ring

theorem classify_positive_and_sum_witness :
    podSightingsFor 1 (0, 0) [] = some [] ∧
    (most_likely_pod 1 (0, 0) [] = some (podDist []) ∧
      0 < (podDist []).1 ∧ 0 < (podDist []).2.1 ∧ 0 < (podDist []).2.2 ∧
      (podDist []).1 + (podDist []).2.1 + (podDist []).2.2 =
        ((podCount 'J' [] + podCount 'K' [] + podCount 'L' [] : ℕ) : ℚ) /
          ((podTotal [] : ℕ) : ℚ)) :=
  ⟨rfl, classify_positive_and_sum 1 (0, 0) [] [] rfl⟩

theorem countP_replicate (p : α → Bool) (a : α) (n : ℕ) :
    (List.replicate n a).countP p = if p a then n else 0 := by
  induction n with
  | zero => simp
  | succ n ih =>
    rw [List.replicate_succ, List.countP_cons, ih]
    by_cases h : p a <;> simp [h]

/-- Claim C4: at the `find_prob` call site the whale bounds have area 4, so
`bootstrap` never hits the division guard and returns exactly
`(orcas_in_sight + 1) / (large_number + 1)`, a value strictly greater than
0 and at most 1 for every outcome of the draws. -/
theorem bootstrap_laplace_range (loc : ℚ × ℚ) (sightings : List (ℚ × ℚ))
    (draws : List Draw) (h : draws.length = large_number) :
    find_prob loc sightings draws =
      some (((hitsOf loc sightings draws : ℚ) + 1) / ((large_number : ℚ) + 1)) ∧
    0 < ((hitsOf loc sightings draws : ℚ) + 1) / ((large_number : ℚ) + 1) ∧
    ((hitsOf loc sightings draws : ℚ) + 1) / ((large_number : ℚ) + 1) ≤ 1 := by
  have harea : boundsArea (whaleBoundsOf loc) = 4 := by
    unfold boundsArea whaleBoundsOf
    ring
  have hden : (0 : ℚ) < (large_number : ℚ) + 1 := by positivity
  refine ⟨?_, ?_, ?_⟩
  · unfold find_prob bootstrap
    rw [if_neg (by rw [harea]; norm_num)]
    rfl
  · positivity
  · rw [div_le_one hden]
    have hle : hitsOf loc sightings draws ≤ large_number := by
      rw [← h]
      exact List.countP_le_length _
    have : ((hitsOf loc sightings draws : ℕ) : ℚ) ≤ ((large_number : ℕ) : ℚ) := by
      exact_mod_cast hle
    linarith

theorem bootstrap_laplace_range_witness :
    (List.replicate large_number (Draw.mk 1 0 0)).length = large_number ∧
    (find_prob (0, 0) [] (List.replicate large_number (Draw.mk 1 0 0)) =
        some (((hitsOf (0, 0) [] (List.replicate large_number (Draw.mk 1 0 0)) : ℚ) + 1) /
          ((large_number : ℚ) + 1)) ∧
      0 < ((hitsOf (0, 0) [] (List.replicate large_number (Draw.mk 1 0 0)) : ℚ) + 1) /
          ((large_number : ℚ) + 1) ∧
      ((hitsOf (0, 0) [] (List.replicate large_number (Draw.mk 1 0 0)) : ℚ) + 1) /
          ((large_number : ℚ) + 1) ≤ 1) :=
  ⟨by rw [List.length_replicate],
    bootstrap_laplace_range (0, 0) [] _ (by rw [List.length_replicate])⟩

/-- Counterexample to claim C5: `random.random()` can return exactly 0.0,
and `chance <= p` is a non-strict comparison, so even with `p = 0` an
outcome whose first draw has chance 0 and coordinates inside the sight
bounds counts a hit: the result is 2 / (trials + 1), not 1 / (trials + 1). -/
theorem zero_chance_draw_cex :
    (Draw.mk 0 0 0 :: List.replicate (large_number - 1) (Draw.mk 1 0 0)).length =
      large_number ∧
    nearbyPoints (0, 0) [] = [] ∧
    find_prob (0, 0) []
        (Draw.mk 0 0 0 :: List.replicate (large_number - 1) (Draw.mk 1 0 0)) =
      some (2 / ((large_number : ℚ) + 1)) ∧
    2 / ((large_number : ℚ) + 1) ≠ 1 / ((large_number : ℚ) + 1) := by
  refine ⟨?_, rfl, ?_, by norm_num [large_number]⟩
  · rw [List.length_cons, List.length_replicate]
    unfold large_number
    omega
  · norm_num [find_prob, bootstrap, nearbyPoints, nearbyAreas, whaleBoundsOf,
      sightBoundsOf, boundsArea, hitTest, List.countP_cons, countP_replicate,
      large_number]

/-- Claim C5 as amended: with no nearby events the analytic weight `p` is 0,
and for every outcome of the draws in which no Bernoulli draw returns
exactly 0 (an almost-sure event for `random.random()`), the result is
exactly 1 / (trials + 1). -/
theorem smoothing_floor_when_no_nearby (loc : ℚ × ℚ) (sightings : List (ℚ × ℚ))
    (draws : List Draw) (hn : nearbyPoints loc sightings = [])
    (hd : ∀ d ∈ draws, 0 < d.chance) :
    pOf loc sightings = 0 ∧
    find_prob loc sightings draws = some (1 / ((large_number : ℚ) + 1)) := by
  have hp : ((nearbyAreas (nearbyPoints loc sightings)).map boundsArea).sum /
      boundsArea (whaleBoundsOf loc) = 0 := by
    rw [hn]
    simp [nearbyAreas]
  refine ⟨hp, ?_⟩
  have harea : boundsArea (whaleBoundsOf loc) = 4 := by
    unfold boundsArea whaleBoundsOf
    ring
  unfold find_prob bootstrap
  rw [if_neg (by rw [harea]; norm_num)]
  rw [hp]
  have hc : draws.countP (hitTest 0 (sightBoundsOf loc)) = 0 := by
    rw [List.countP_eq_zero]
    intro d hdmem
    have hpos := hd d hdmem
    simp only [hitTest, Bool.and_eq_true, decide_eq_true_eq]
    intro hfalse
    rcases hfalse with ⟨⟨⟨⟨h1, _⟩, _⟩, _⟩, _⟩
    linarith
  rw [hc]
  norm_num

theorem smoothing_floor_when_no_nearby_witness :
    nearbyPoints (0, 0) [] = [] ∧ (∀ d ∈ ([] : List Draw), 0 < d.chance) ∧
    (pOf (0, 0) [] = 0 ∧
      find_prob (0, 0) [] [] = some (1 / ((large_number : ℚ) + 1))) :=
  ⟨rfl, by simp, smoothing_floor_when_no_nearby (0, 0) [] [] rfl (by simp)⟩

theorem pyRound_ge_iff (k : ℤ) (hk : k % 2 = 0) (q : ℚ) :
    k ≤ pyRound q ↔ (k : ℚ) - 1/2 ≤ q := by
  have hfl : ((⌊q⌋ : ℤ) : ℚ) ≤ q := Int.floor_le q
  have hfu : q < ((⌊q⌋ : ℤ) : ℚ) + 1 := Int.lt_floor_add_one q
  unfold pyRound
  split_ifs with h1 h2 h3
  · constructor
    · intro hk2
      have : ((k : ℤ) : ℚ) ≤ ((⌊q⌋ : ℤ) : ℚ) := by exact_mod_cast hk2
      linarith
    · intro hq
      have hlt : ((k : ℤ) : ℚ) < ((⌊q⌋ : ℤ) : ℚ) + 1 := by linarith
      have : k < ⌊q⌋ + 1 := by exact_mod_cast hlt
      omega
  · constructor
    · intro hk2
      have : ((k : ℤ) : ℚ) ≤ ((⌊q⌋ : ℤ) : ℚ) + 1 := by exact_mod_cast hk2
      linarith
    · intro hq
      have hlt : ((k : ℤ) : ℚ) < ((⌊q⌋ : ℤ) : ℚ) + 2 := by linarith
      have : k < ⌊q⌋ + 2 := by exact_mod_cast hlt
      omega
  · have heq : q = ((⌊q⌋ : ℤ) : ℚ) + 1/2 := by
      have ha := not_lt.mp h1
      have hb := not_lt.mp h2
      linarith
    constructor
    · intro hk2
      have : ((k : ℤ) : ℚ) ≤ ((⌊q⌋ : ℤ) : ℚ) := by exact_mod_cast hk2
      rw [heq]
      linarith
    · intro hq
      rw [heq] at hq
      have hle : ((k : ℤ) : ℚ) ≤ ((⌊q⌋ : ℤ) : ℚ) + 1 := by linarith
      have : k ≤ ⌊q⌋ + 1 := by exact_mod_cast hle
      omega
  · have heq : q = ((⌊q⌋ : ℤ) : ℚ) + 1/2 := by
      have ha := not_lt.mp h1
      have hb := not_lt.mp h2
      linarith
    constructor
    · intro hk2
      have : ((k : ℤ) : ℚ) ≤ ((⌊q⌋ : ℤ) : ℚ) + 1 := by exact_mod_cast hk2
      rw [heq]
      linarith
    · intro hq
      rw [heq] at hq
      have hle : ((k : ℤ) : ℚ) ≤ ((⌊q⌋ : ℤ) : ℚ) + 1 := by linarith
      have : k ≤ ⌊q⌋ + 1 := by exact_mod_cast hle
      omega

theorem pyIndex_eq_none_iff (i : ℤ) :
    pyIndex i = none ↔ i < -(gridSize : ℤ) ∨ (gridSize : ℤ) ≤ i := by
  unfold pyIndex
  split_ifs with h1 h2 <;> simp <;> omega

theorem cellIdx_eq_none_iff (s : ℚ × ℚ) :
    cellIdx s = none ↔
      pyIndex (cellOf s).1 = none ∨ pyIndex (cellOf s).2 = none := by
  unfold cellIdx
  rcases hx : pyIndex (cellOf s).1 with _ | x <;>
    rcases hy : pyIndex (cellOf s).2 with _ | y <;> simp

/-- Counterexample to claim C10: the sighting with latitude -0.004 and
longitude -1 has NEGATIVE latitude outside the claimed in-bounds interval
[0, 199.995), yet `round(-0.004 * 100) = round(-0.4) = 0`, so the access is
a proper in-bounds access to cell (100, 0) with no negative-index aliasing
and no failure. -/
theorem negative_latitude_proper_access_cex :
    ((-1/250 : ℚ) < 0) ∧
    properAccess (-1/250, -1) ∧
    cellOf (-1/250, -1) = (100, 0) := by
  have hcell : cellOf ((-1/250 : ℚ), (-1 : ℚ)) = (100, 0) := by
    unfold cellOf pyRound
    norm_num
  exact ⟨by norm_num, by unfold properAccess; rw [hcell]; norm_num [gridSize], hcell⟩

/-- Claim C10 as amended: `best_location` indexes the grid with
`x = round(longitude * -100)` and `y = round(latitude * 100)` (Python
round-half-to-even); the access is a proper, non-aliased in-bounds access
exactly for latitude in [-0.005, 199.995) and longitude in
(-199.995, 0.005]; outside that but before failure the negative index
silently aliases a cell counted from the end; and the operation raises
`IndexError` exactly when latitude < -200.005 or latitude ≥ 199.995 or
longitude ≤ -199.995 or longitude > 200.005. -/
theorem grid_access_characterisation (s : ℚ × ℚ) :
    cellOf s = (pyRound (s.2 * (-100)), pyRound (s.1 * 100)) ∧
    (properAccess s ↔
      (-(1/200) ≤ s.1 ∧ s.1 < 39999/200 ∧ -(39999/200) < s.2 ∧ s.2 ≤ 1/200)) ∧
    (cellIdx s = none ↔
      (s.1 < -(40001/200) ∨ 39999/200 ≤ s.1 ∨ s.2 ≤ -(39999/200) ∨ 40001/200 < s.2)) := by
  have hy0 : 0 ≤ pyRound (s.1 * 100) ↔ -(1/200 : ℚ) ≤ s.1 := by
    rw [pyRound_ge_iff 0 (by norm_num)]
    constructor <;> intro h <;> linarith
  have hyN : pyRound (s.1 * 100) < (gridSize : ℤ) ↔ s.1 < (39999/200 : ℚ) := by
    rw [← not_le, ← not_le]
    rw [show ((gridSize : ℤ)) = 20000 from rfl, pyRound_ge_iff 20000 (by norm_num)]
    constructor <;> intro h hc <;> apply h <;> push_cast at * <;> linarith
  have hyLow : -(gridSize : ℤ) ≤ pyRound (s.1 * 100) ↔ -(40001/200 : ℚ) ≤ s.1 := by
    rw [show (-(gridSize : ℤ)) = -20000 from rfl, pyRound_ge_iff (-20000) (by norm_num)]
    constructor <;> intro h <;> push_cast at * <;> linarith
  have hx0 : 0 ≤ pyRound (s.2 * (-100)) ↔ s.2 ≤ (1/200 : ℚ) := by
    rw [pyRound_ge_iff 0 (by norm_num)]
    constructor <;> intro h <;> linarith
  have hxN : pyRound (s.2 * (-100)) < (gridSize : ℤ) ↔ -(39999/200 : ℚ) < s.2 := by
    rw [← not_le, ← not_le]
    rw [show ((gridSize : ℤ)) = 20000 from rfl, pyRound_ge_iff 20000 (by norm_num)]
    constructor <;> intro h hc <;> apply h <;> push_cast at * <;> linarith
  have hxLow : -(gridSize : ℤ) ≤ pyRound (s.2 * (-100)) ↔ s.2 ≤ (40001/200 : ℚ) := by
    rw [show (-(gridSize : ℤ)) = -20000 from rfl, pyRound_ge_iff (-20000) (by norm_num)]
    constructor <;> intro h <;> push_cast at * <;> linarith
  have hyF1 : pyRound (s.1 * 100) < -(gridSize : ℤ) ↔ s.1 < -(40001/200 : ℚ) := by
    constructor
    · intro h
      by_contra hc
      push_neg at hc
      have := hyLow.mpr hc
      omega
    · intro h
      by_contra hc
      push_neg at hc
      have := hyLow.mp hc
      linarith
  have hyF2 : (gridSize : ℤ) ≤ pyRound (s.1 * 100) ↔ (39999/200 : ℚ) ≤ s.1 := by
    constructor
    · intro h
      by_contra hc
      push_neg at hc
      have := hyN.mpr hc
      omega
    · intro h
      by_contra hc
      push_neg at hc
      have := hyN.mp hc
      linarith
  have hxF1 : pyRound (s.2 * (-100)) < -(gridSize : ℤ) ↔ (40001/200 : ℚ) < s.2 := by
    constructor
    · intro h
      by_contra hc
      push_neg at hc
      have := hxLow.mpr hc
      omega
    · intro h
      by_contra hc
      push_neg at hc
      have := hxLow.mp hc
      linarith
  have hxF2 : (gridSize : ℤ) ≤ pyRound (s.2 * (-100)) ↔ s.2 ≤ -(39999/200 : ℚ) := by
    constructor
    · intro h
      by_contra hc
      push_neg at hc
      have := hxN.mpr hc
      omega
    · intro h
      by_contra hc
      push_neg at hc
      have := hxN.mp hc
      linarith
  refine ⟨rfl, ?_, ?_⟩
  · unfold properAccess
    rw [show (cellOf s).1 = pyRound (s.2 * (-100)) from rfl,
      show (cellOf s).2 = pyRound (s.1 * 100) from rfl]
    rw [hy0, hyN, hx0, hxN]
    constructor
    · rintro ⟨a, b, c, d⟩
      exact ⟨c, d, b, a⟩
    · rintro ⟨c, d, b, a⟩
      exact ⟨a, b, c, d⟩
  · rw [cellIdx_eq_none_iff, pyIndex_eq_none_iff, pyIndex_eq_none_iff]
    rw [show (cellOf s).1 = pyRound (s.2 * (-100)) from rfl,
      show (cellOf s).2 = pyRound (s.1 * 100) from rfl]
    rw [hyF1, hyF2, hxF1, hxF2]
    constructor
    · rintro ((h | h) | (h | h))
      · right; right; right; exact h
      · right; right; left; exact h
      · left; exact h
      · right; left; exact h
    · rintro (h | h | h | h)
      · right; left; exact h
      · right; right; exact h
      · left; right; exact h
      · left; left; exact h

theorem scan_no_update (cnt : ℕ × ℕ → ℕ) (l : List (ℕ × ℕ)) :
    ∀ acc : (ℕ × ℕ) × ℕ, (∀ c ∈ l, cnt c ≤ acc.2) →
      l.foldl (scanStep cnt) acc = acc := by
  induction l with
  | nil => intro acc _; rfl
  | cons a t ih =>
    intro acc h
    rw [List.foldl_cons]
    have ha : cnt a ≤ acc.2 := h a (by simp)
    have hstep : scanStep cnt acc a = acc := by
      unfold scanStep
      rw [if_neg (by omega)]
    rw [hstep]
    exact ih acc (fun c hc => h c (by simp [hc]))

theorem scan_spec (cnt : ℕ × ℕ → ℕ) (l : List (ℕ × ℕ)) :
    ∀ acc : (ℕ × ℕ) × ℕ, (∃ c ∈ l, acc.2 < cnt c) →
      ∃ pre b post, l = pre ++ b :: post ∧
        l.foldl (scanStep cnt) acc = (b, cnt b) ∧
        acc.2 < cnt b ∧
        (∀ d ∈ pre, cnt d < cnt b) ∧
        (∀ d ∈ l, cnt d ≤ cnt b) := by
  induction l with
  | nil =>
    intro acc hex
    obtain ⟨c, hc, _⟩ := hex
    exact absurd hc (by simp)
  | cons a t ih =>
    intro acc hex
    by_cases hat : acc.2 < cnt a
    · have hstep : scanStep cnt acc a = (a, cnt a) := by
        unfold scanStep
        rw [if_pos (by omega)]
      by_cases hta : ∃ c ∈ t, cnt a < cnt c
      · obtain ⟨pre, b, post, heq, hfold, hlt, hpre, hmax⟩ := ih (a, cnt a) hta
        refine ⟨a :: pre, b, post, by rw [heq]; rfl, ?_, by omega, ?_, ?_⟩
        · rw [List.foldl_cons, hstep]
          exact hfold
        · intro d hd
          rcases List.mem_cons.mp hd with rfl | hdp
          · omega
          · exact hpre d hdp
        · intro d hd
          rcases List.mem_cons.mp hd with rfl | hdt
          · omega
          · exact hmax d hdt
      · push_neg at hta
        have hnone : t.foldl (scanStep cnt) (a, cnt a) = (a, cnt a) :=
          scan_no_update cnt t (a, cnt a) hta
        refine ⟨[], a, t, rfl, ?_, hat, by simp, ?_⟩
        · rw [List.foldl_cons, hstep]
          exact hnone
        · intro d hd
          rcases List.mem_cons.mp hd with rfl | hdt
          · omega
          · exact hta d hdt
    · have hstep : scanStep cnt acc a = acc := by
        unfold scanStep
        rw [if_neg (by omega)]
      have hex2 : ∃ c ∈ t, acc.2 < cnt c := by
        obtain ⟨c, hc, hlt⟩ := hex
        rcases List.mem_cons.mp hc with rfl | hct
        · omega
        · exact ⟨c, hct, hlt⟩
      obtain ⟨pre, b, post, heq, hfold, hlt, hpre, hmax⟩ := ih acc hex2
      refine ⟨a :: pre, b, post, by rw [heq]; rfl, ?_, hlt, ?_, ?_⟩
      · rw [List.foldl_cons, hstep]
        exact hfold
      · intro d hd
        rcases List.mem_cons.mp hd with rfl | hdp
        · omega
        · exact hpre d hdp
      · intro d hd
        rcases List.mem_cons.mp hd with rfl | hdt
        · omega
        · exact hmax d hdt

theorem bestScan_spec (cells : List (ℕ × ℕ)) (hne : cells ≠ []) :
    ∃ b m, bestScan cells = (b, m) ∧ cells.count b = m ∧
      (∀ c ∈ cells, cells.count c ≤ m) ∧
      (∀ c ∈ cells, cells.count c = m → scanLe b c) := by
  obtain ⟨c0, hc0⟩ := List.exists_mem_of_ne_nil cells hne
  have hperm : List.Perm (List.insertionSort scanLe cells.dedup) cells.dedup :=
    List.perm_insertionSort scanLe cells.dedup
  have hmem : ∀ x, x ∈ List.insertionSort scanLe cells.dedup ↔ x ∈ cells := by
    intro x
    rw [hperm.mem_iff, List.mem_dedup]
  have hex : ∃ c ∈ List.insertionSort scanLe cells.dedup,
      ((((0, 0) : ℕ × ℕ), (0 : ℕ)) : (ℕ × ℕ) × ℕ).2 < cells.count c :=
    ⟨c0, (hmem c0).mpr hc0, List.count_pos_iff.mpr hc0⟩
  obtain ⟨pre, b, post, heq, hfold, hlt, hpre, hmax⟩ :=
    scan_spec (fun c => cells.count c) (List.insertionSort scanLe cells.dedup)
      ((0, 0), 0) hex
  refine ⟨b, cells.count b, hfold, rfl, ?_, ?_⟩
  · intro c hc
    exact hmax c ((hmem c).mpr hc)
  · intro c hc hcm
    have hcs : c ∈ List.insertionSort scanLe cells.dedup := (hmem c).mpr hc
    rw [heq] at hcs
    rcases List.mem_append.mp hcs with hcpre | hcbp
    · have := hpre c hcpre
      omega
    · rcases List.mem_cons.mp hcbp with rfl | hcpost
      · right
        exact ⟨rfl, le_refl _⟩
      · have hsort : List.Sorted scanLe (List.insertionSort scanLe cells.dedup) :=
          List.sorted_insertionSort scanLe cells.dedup
        rw [heq] at hsort
        have hp2 := (List.pairwise_append.mp hsort).2.1
        exact (List.pairwise_cons.mp hp2).1 c hcpost

/-- Counterexample to claim C2: the sightings (0.02, -0.01) then (0.01, 0)
fall in two distinct bins, each with the maximum count 1; the
first-encountered-in-event-order tie-break would return the first event's
bin (0.02, -0.01), but `best_location` scans the grid in index order and
returns (0.01, 0), the bin with the lexicographically least (row, col). -/
theorem best_location_tiebreak_cex :
    best_location [(1/50, -(1/100)), (1/100, 0)] =
      some (((1/100 : ℚ), (0 : ℚ)), 1) ∧
    ((1/100 : ℚ), (0 : ℚ)) ≠ ((1/50 : ℚ), -(1/100 : ℚ)) := by
  have h1 : cellIdx ((1/50 : ℚ), -(1/100 : ℚ)) = some (1, 2) := by
    unfold cellIdx
    rw [show cellOf ((1/50 : ℚ), -(1/100 : ℚ)) = (1, 2) from by
      unfold cellOf pyRound; norm_num]
    decide
  have h2 : cellIdx ((1/100 : ℚ), (0 : ℚ)) = some (0, 1) := by
    unfold cellIdx
    rw [show cellOf ((1/100 : ℚ), (0 : ℚ)) = (0, 1) from by
      unfold cellOf pyRound; norm_num]
    decide
  have hfill : fillCells [(1/50, -(1/100)), (1/100, 0)] = some [(1, 2), (0, 1)] := by
    simp only [fillCells, h1, h2]
  have hscan : bestScan [(1, 2), (0, 1)] = ((0, 1), 1) := by decide
  constructor
  · unfold best_location
    rw [hfill]
    norm_num [hscan]
  · intro h
    have := congrArg Prod.fst h
    norm_num at this

/-- Claim C2 as amended: for non-empty sightings that all bin without an
`IndexError`, `best_location` returns the real-coordinate form of a bin
achieving the maximum observed count, but ties between bins of maximal
count are broken by the grid scan order — the lexicographically least
(row, col) index pair, row = round(-100 * longitude) first — not by the
order in which events were encountered. -/
theorem best_location_scan_order (sightings : List (ℚ × ℚ))
    (cells : List (ℕ × ℕ)) (hne : sightings ≠ [])
    (hc : fillCells sightings = some cells) :
    ∃ b m, bestScan cells = (b, m) ∧
      best_location sightings = some ((((b.2 : ℚ)) / 100, -((b.1 : ℚ)) / 100), m) ∧
      cells.count b = m ∧
      (∀ c ∈ cells, cells.count c ≤ m) ∧
      (∀ c ∈ cells, cells.count c = m → scanLe b c) := by
  have hcne : cells ≠ [] := by
    rcases sightings with _ | ⟨s, rest⟩
    · exact absurd rfl hne
    · unfold fillCells at hc
      rcases hcs : cellIdx s with _ | c <;> rw [hcs] at hc
      · exact absurd hc (by simp)
      · rcases hrest : fillCells rest with _ | cs <;> rw [hrest] at hc
        · exact absurd hc (by simp)
        · have : c :: cs = cells := by simpa using hc
          rw [← this]
          simp
  obtain ⟨b, m, hbs, hcount, hmax, htie⟩ := bestScan_spec cells hcne
  refine ⟨b, m, hbs, ?_, hcount, hmax, htie⟩
  unfold best_location
  rw [hc]
  simp [hbs]

theorem best_location_scan_order_witness :
    ([((0 : ℚ), (0 : ℚ))] ≠ []) ∧
    fillCells [((0 : ℚ), (0 : ℚ))] = some [(0, 0)] ∧
    (∃ b m, bestScan [((0 : ℕ), (0 : ℕ))] = (b, m) ∧
      best_location [((0 : ℚ), (0 : ℚ))] =
        some ((((b.2 : ℚ)) / 100, -((b.1 : ℚ)) / 100), m) ∧
      ([((0 : ℕ), (0 : ℕ))] : List (ℕ × ℕ)).count b = m ∧
      (∀ c ∈ ([((0 : ℕ), (0 : ℕ))] : List (ℕ × ℕ)),
        ([((0 : ℕ), (0 : ℕ))] : List (ℕ × ℕ)).count c ≤ m) ∧
      (∀ c ∈ ([((0 : ℕ), (0 : ℕ))] : List (ℕ × ℕ)),
        ([((0 : ℕ), (0 : ℕ))] : List (ℕ × ℕ)).count c = m → scanLe b c)) := by
  have hfill : fillCells [((0 : ℚ), (0 : ℚ))] = some [(0, 0)] := by
    have hcell : cellIdx ((0 : ℚ), (0 : ℚ)) = some (0, 0) := by
      unfold cellIdx
      rw [show cellOf ((0 : ℚ), (0 : ℚ)) = (0, 0) from by
        unfold cellOf pyRound; norm_num]
      decide
    simp only [fillCells, hcell]
  exact ⟨by simp, hfill, best_location_scan_order _ _ (by simp) hfill⟩

theorem bestScan_singleton (c : ℕ × ℕ) : bestScan [c] = (c, 1) := by
  unfold bestScan
  simp [List.insertionSort, List.orderedInsert, scanStep, List.count_cons]

/-- Counterexample to claim C3: on the single sighting
(48.123, -123.456), `best_location` returns the bin coordinate
(48.12, -123.46) — the event's coordinates rounded to the 0.01 grid — not
the event's exact coordinates (the count of 1 is correct). -/
theorem best_location_single_rounds_cex :
    best_location [((48123/1000 : ℚ), -(123456/1000 : ℚ))] =
      some ((((4812 : ℚ)) / 100, -((12346 : ℚ)) / 100), 1) ∧
    (((4812 : ℚ)) / 100, -((12346 : ℚ)) / 100) ≠
      ((48123/1000 : ℚ), -(123456/1000 : ℚ)) := by
  have hcell : cellIdx ((48123/1000 : ℚ), -(123456/1000 : ℚ)) = some (12346, 4812) := by
    unfold cellIdx
    rw [show cellOf ((48123/1000 : ℚ), -(123456/1000 : ℚ)) = (12346, 4812) from by
      unfold cellOf pyRound; norm_num]
    decide
  have hfill : fillCells [((48123/1000 : ℚ), -(123456/1000 : ℚ))] =
      some [(12346, 4812)] := by
    simp only [fillCells, hcell]
  constructor
  · unfold best_location
    rw [hfill]
    norm_num [bestScan_singleton]
  · intro h
    have := congrArg Prod.fst h
    norm_num at this

/-- Claim C3 as amended: for a single sighting whose grid access is proper,
`best_location` returns the sighting's coordinates ROUNDED to the 0.01 bin
grid, `(round(lat * 100) / 100, -round(-100 * long) / 100)`, with winning
count 1; this equals the exact coordinates only when both coordinates are
integer multiples of 0.01. -/
theorem best_location_single_event (s : ℚ × ℚ) (h : properAccess s) :
    best_location [s] =
      some ((((pyRound (s.1 * 100) : ℤ) : ℚ) / 100,
        -(((pyRound (s.2 * (-100)) : ℤ) : ℚ)) / 100), 1) := by
  obtain ⟨hx0, hxN, hy0, hyN⟩ := h
  have hx : pyIndex (cellOf s).1 = some (cellOf s).1.toNat := by
    unfold pyIndex
    rw [if_pos ⟨hx0, hxN⟩]
  have hy : pyIndex (cellOf s).2 = some (cellOf s).2.toNat := by
    unfold pyIndex
    rw [if_pos ⟨hy0, hyN⟩]
  have hcell : cellIdx s = some ((cellOf s).1.toNat, (cellOf s).2.toNat) := by
    unfold cellIdx
    rw [hx, hy]
  have cy : (((cellOf s).2.toNat : ℕ) : ℚ) = ((pyRound (s.1 * 100) : ℤ) : ℚ) := by
    rw [show (cellOf s).2 = pyRound (s.1 * 100) from rfl] at hy0 ⊢
    exact_mod_cast congrArg (Int.cast : ℤ → ℚ) (Int.toNat_of_nonneg hy0)
  have cx : (((cellOf s).1.toNat : ℕ) : ℚ) = ((pyRound (s.2 * (-100)) : ℤ) : ℚ) := by
    rw [show (cellOf s).1 = pyRound (s.2 * (-100)) from rfl] at hx0 ⊢
    exact_mod_cast congrArg (Int.cast : ℤ → ℚ) (Int.toNat_of_nonneg hx0)
  have hfill : fillCells [s] = some [((cellOf s).1.toNat, (cellOf s).2.toNat)] := by
    simp only [fillCells, hcell]
  unfold best_location
  rw [hfill]
  simp only [bestScan_singleton]
  rw [← cy, ← cx]

theorem best_location_single_event_witness :
    properAccess ((1/100 : ℚ), -(3/100 : ℚ)) ∧
    best_location [((1/100 : ℚ), -(3/100 : ℚ))] =
      some ((((pyRound ((1/100 : ℚ) * 100) : ℤ) : ℚ) / 100,
        -(((pyRound ((-(3/100 : ℚ)) * (-100)) : ℤ) : ℚ)) / 100), 1) := by
  have hp : properAccess ((1/100 : ℚ), -(3/100 : ℚ)) := by
    unfold properAccess cellOf pyRound
    norm_num [gridSize]
  exact ⟨hp, best_location_single_event _ hp⟩

end Orca
